import Mathlib

/-!
Verification development for the easyLog logging library.

The C++ sources (src/Easylog.hpp, the single-header version, and
src/libBuild/EasyLog.hpp + src/libBuild/EasyLog.cpp, the library version)
are shallowly embedded below.  Strings are `List Char`; `std::size_t`
values are `Nat` with the wrap-around modulus made explicit where it
matters; functions that can throw or read out of bounds return an
`Option`/result type whose error constructors mark the event.  Recursive
and looping code is embedded with an explicit fuel parameter; the
user-facing wrappers instantiate the fuel with the bound that is proved
sufficient for the terminating cases.
-/

set_option maxRecDepth 10000
set_option linter.dupNamespace false

namespace eLog

/-- `std::size_t` wraps modulo `2 ^ 64`. -/
def U64 : Nat := 2 ^ 64

/-- `std::string::npos` = `size_t(-1)`. -/
def NPOS : Nat := U64 - 1

namespace AsciiColor

/-- `eLog::AsciiColor::ColorEnum` (Easylog.hpp lines 135-154). -/
inductive ColorEnum where
  | RESET
  | BLACK
  | RED
  | GREEN
  | YELLOW
  | BLUE
  | MAGENTA
  | CYAN
  | WHITE
  | BOLD_BLACK
  | BOLD_RED
  | BOLD_GREEN
  | BOLD_YELLOW
  | BOLD_BLUE
  | BOLD_MAGENTA
  | BOLD_CYAN
  | BOLD_WHITE
deriving DecidableEq, Repr

/-- The entries of the `AsciiColors` map (an `std::unordered_map`, so its
iteration order — in particular `AsciiColors.begin()` — is unspecified;
definitions that read `begin()->second` take it as a parameter). -/
def AsciiColors : List (ColorEnum × List Char) :=
  [ (ColorEnum.RESET, "\x1b[0m".toList)
  , (ColorEnum.BLACK, "\x1b[30m".toList)
  , (ColorEnum.RED, "\x1b[31m".toList)
  , (ColorEnum.GREEN, "\x1b[32m".toList)
  , (ColorEnum.YELLOW, "\x1b[33m".toList)
  , (ColorEnum.BLUE, "\x1b[34m".toList)
  , (ColorEnum.MAGENTA, "\x1b[35m".toList)
  , (ColorEnum.CYAN, "\x1b[36m".toList)
  , (ColorEnum.WHITE, "\x1b[37m".toList)
  , (ColorEnum.BOLD_BLACK, "\x1b[1m\x1b[30m".toList)
  , (ColorEnum.BOLD_RED, "\x1b[1m\x1b[31m".toList)
  , (ColorEnum.BOLD_GREEN, "\x1b[1m\x1b[32m".toList)
  , (ColorEnum.BOLD_YELLOW, "\x1b[1m\x1b[33m".toList)
  , (ColorEnum.BOLD_BLUE, "\x1b[1m\x1b[34m".toList)
  , (ColorEnum.BOLD_MAGENTA, "\x1b[1m\x1b[35m".toList)
  , (ColorEnum.BOLD_CYAN, "\x1b[1m\x1b[36m".toList)
  , (ColorEnum.BOLD_WHITE, "\x1b[1m\x1b[37m".toList) ]

/-- `AsciiColors.contains(color)`. -/
def asciiColorsContains (c : ColorEnum) : Bool :=
  (AsciiColors.find? (fun p => p.1 == c)).isSome

/-- `AsciiColors.at(color)` (never throws: the map holds every enum value). -/
def asciiAt (c : ColorEnum) : List Char :=
  ((AsciiColors.find? (fun p => p.1 == c)).map Prod.snd).getD []

/-- `eLog::AsciiColor::ResetColor`. -/
def ResetColor : List Char := asciiAt ColorEnum.RESET

end AsciiColor

namespace StringHelper

/-- `eLog::StringHelper::isCharPunctuationMark` (Easylog.hpp lines 292-298). -/
def isCharPunctuationMark (c : Char) : Bool :=
  c == ' ' || c == ',' || c == '.' || c == '!' || c == '?' ||
  c == ';' || c == ':' || c == '\n' || c == '\t'

/-- The substring `pat` occurs in `str` at index `i`. -/
def occursAt (str pat : List Char) (i : Nat) : Bool :=
  decide (i + pat.length ≤ str.length) && ((str.drop i).take pat.length == pat)

/-- Scan of `std::string_view::find(pat, pos)`: `k` counts the candidate
start positions still to try. -/
def cppFindGo (str pat : List Char) : Nat → Nat → Option Nat
  | _, 0 => none
  | i, k + 1 => if occursAt str pat i then some i else cppFindGo str pat (i + 1) k

/-- `std::string_view::find(pat, pos)`; `none` stands for `npos`. -/
def cppFind (str pat : List Char) (pos : Nat) : Option Nat :=
  cppFindGo str pat pos (str.length + 1 - pos)

/-- `find` with the `npos` sentinel kept as a `size_t` value, for code that
does arithmetic or comparisons on the raw result. -/
def cppFindN (str pat : List Char) (pos : Nat) : Nat :=
  (cppFind str pat pos).getD NPOS

/-- Result of the standalone-match search.  `oobRead` marks the execution
reading `str[i]` at an invalid index of the `string_view` (undefined
behaviour in the source); `outOfFuel` marks fuel exhaustion of the
embedding (the source recursion has made more calls than the given
bound). -/
inductive SearchRes where
  | found (p : Nat)
  | npos
  | oobRead
  | outOfFuel
deriving DecidableEq, Repr

/-- `eLog::StringHelper::findStandaloneNextMatchPosition`
(Easylog.hpp lines 351-374), fuel-indexed.  Each `str[i]` read is the
`string_view` `operator[]`, modelled as `List` optional indexing. -/
def findStandaloneNextMatchPositionF (fuel : Nat) (str pat : List Char) (pos : Nat) :
    SearchRes :=
  match fuel with
  | 0 => SearchRes.outOfFuel
  | fuel + 1 =>
    match cppFind str pat pos with
    | none => SearchRes.npos
    | some nextPos =>
      if nextPos = 0 then
        match str[nextPos + pat.length]? with
        | none => SearchRes.oobRead
        | some c =>
          if isCharPunctuationMark c then SearchRes.found nextPos
          else findStandaloneNextMatchPositionF fuel str pat (nextPos + pat.length)
      else if nextPos = str.length - pat.length then
        match str[nextPos - 1]? with
        | none => SearchRes.oobRead
        | some c =>
          if isCharPunctuationMark c then SearchRes.found nextPos
          else findStandaloneNextMatchPositionF fuel str pat (nextPos + pat.length)
      else
        match str[nextPos - 1]?, str[nextPos + pat.length]? with
        | some c1, some c2 =>
          if isCharPunctuationMark c1 && isCharPunctuationMark c2 then
            SearchRes.found nextPos
          else findStandaloneNextMatchPositionF fuel str pat (nextPos + pat.length)
        | _, _ => SearchRes.oobRead

/-- `findStandaloneNextMatchPosition` with the fuel bound that suffices for
every non-empty pattern (proved below). -/
def findStandaloneNextMatchPosition (str pat : List Char) (pos : Nat) : SearchRes :=
  findStandaloneNextMatchPositionF (str.length + 1) str pat pos

/-- Result of `findStandaloneMatchPositions`. -/
inductive PosRes where
  | ok (l : List Nat)
  | oobRead
  | outOfFuel
deriving DecidableEq, Repr

/-- The `while` loop of `eLog::StringHelper::findStandaloneMatchPositions`
(Easylog.hpp lines 312-336), fuel-indexed; `posOpt` is the current value of
`pos` (`none` = `npos`), `acc` the `positions` vector. -/
def findStandaloneMatchPositionsF (fuel : Nat) (str pat : List Char)
    (posOpt : Option Nat) (acc : List Nat) : PosRes :=
  match fuel with
  | 0 => PosRes.outOfFuel
  | fuel + 1 =>
    match posOpt with
    | none => PosRes.ok acc
    | some pos =>
      if pos = 0 then
        match str[pos + pat.length]? with
        | none => PosRes.oobRead
        | some c =>
          findStandaloneMatchPositionsF fuel str pat (cppFind str pat (pos + pat.length))
            (if isCharPunctuationMark c then acc ++ [pos] else acc)
      else if pos = str.length - pat.length then
        match str[pos - 1]? with
        | none => PosRes.oobRead
        | some c =>
          findStandaloneMatchPositionsF fuel str pat (cppFind str pat (pos + pat.length))
            (if isCharPunctuationMark c then acc ++ [pos] else acc)
      else
        match str[pos - 1]?, str[pos + pat.length]? with
        | some c1, some c2 =>
          findStandaloneMatchPositionsF fuel str pat (cppFind str pat (pos + pat.length))
            (if isCharPunctuationMark c1 && isCharPunctuationMark c2 then acc ++ [pos] else acc)
        | _, _ => PosRes.oobRead

/-- `eLog::StringHelper::findStandaloneMatchPositions` with a sufficient
fuel bound for non-empty patterns. -/
def findStandaloneMatchPositions (str pat : List Char) : PosRes :=
  findStandaloneMatchPositionsF (str.length + 2) str pat (cppFind str pat 0) []

/-- `std::string::replace(pos, count, repl)` (the count clamps to the end of
the string, as in the source type). -/
def cppReplace (str : List Char) (pos count : Nat) (repl : List Char) : List Char :=
  str.take pos ++ repl ++ str.drop (pos + count)

/-- Result of `eLog::StringHelper::Replace`. -/
inductive RepRes where
  | ok (s : List Char)
  | oobRead
  | outOfFuel
deriving DecidableEq, Repr

/-- The `while` loop of `Replace` in the `replaceAllMatching` case
(Easylog.hpp lines 397-404), fuel-indexed; `res` is the current search
result for `pos`. -/
def replaceAllLoopF (fuel : Nat) (str pat repl : List Char) (res : SearchRes) : RepRes :=
  match fuel with
  | 0 => RepRes.outOfFuel
  | fuel + 1 =>
    match res with
    | SearchRes.oobRead => RepRes.oobRead
    | SearchRes.outOfFuel => RepRes.outOfFuel
    | SearchRes.npos => RepRes.ok str
    | SearchRes.found p =>
      if p < str.length then
        let str' := cppReplace str p pat.length repl
        replaceAllLoopF fuel str' pat repl
          (findStandaloneNextMatchPosition str' pat (p + repl.length))
      else RepRes.ok str

/-- `eLog::StringHelper::Replace` (Easylog.hpp lines 389-405). -/
def Replace (str pat repl : List Char) (replaceAllMatching : Bool) : RepRes :=
  if replaceAllMatching then
    replaceAllLoopF (str.length + 2) str pat repl (findStandaloneNextMatchPosition str pat 0)
  else
    match findStandaloneNextMatchPosition str pat 0 with
    | SearchRes.found p => RepRes.ok (cppReplace str p pat.length repl)
    | SearchRes.npos => RepRes.ok str
    | SearchRes.oobRead => RepRes.oobRead
    | SearchRes.outOfFuel => RepRes.outOfFuel

/-- `eLog::StringHelper::ReplaceString` (Easylog.hpp lines 240-282). -/
structure ReplaceString where
  mBaseString : List Char
  mReplaceString : List Char
  mPrevColor : List Char
  mPosEndColor : Nat
  mReplaceAllMatching : Bool
deriving DecidableEq, Repr

/-- `eLog::StringHelper::ColorizedString` data (Easylog.hpp lines 413-545). -/
structure ColorizedString where
  mStr : List Char
  mReplaceStrings : List ReplaceString
deriving DecidableEq, Repr

/-- `ColorizedString::setColor` (Easylog.hpp lines 451-486).
`beginColor` stands for `AsciiColor::AsciiColors.begin()->second`, the
first element in the unordered map's unspecified iteration order. -/
def setColor (beginColor : List Char) (cs : ColorizedString)
    (strToColorize : List Char) (color : AsciiColor.ColorEnum)
    (replaceAllMatching : Bool) : ColorizedString :=
  if strToColorize.isEmpty && !AsciiColor.asciiColorsContains color then cs
  else
    let prevLast := cs.mReplaceStrings.getLast?
    let prevColor := match prevLast with
      | some r => r.mPrevColor
      | none => AsciiColor.ResetColor
    let lastColorPos := match prevLast with
      | some r => r.mPosEndColor
      | none => 0
    let c := AsciiColor.asciiAt color
    let findPos := cppFindN cs.mStr strToColorize 0
    let replace :=
      c ++ strToColorize ++ prevColor ++
      (if lastColorPos < findPos then beginColor else [])
    { cs with
      mReplaceStrings := cs.mReplaceStrings ++
        [{ mBaseString := strToColorize
         , mReplaceString := replace
         , mPrevColor := c
         , mPosEndColor := (findPos + strToColorize.length) % U64
         , mReplaceAllMatching := replaceAllMatching }] }

/-- The loop body of `ColorizedString::colorize` (Easylog.hpp lines
493-499): apply each stored `ReplaceString` in order to the current
string, propagating the error outcomes. -/
def colorizeList (str : List Char) : List ReplaceString → RepRes
  | [] => RepRes.ok str
  | r :: rs =>
    match Replace str r.mBaseString r.mReplaceString r.mReplaceAllMatching with
    | RepRes.ok str' => colorizeList str' rs
    | e => e

/-- `ColorizedString::colorize`; the `.ok` payload is the final `mStr`. -/
def colorize (cs : ColorizedString) : RepRes :=
  colorizeList cs.mStr cs.mReplaceStrings

/-- A reported position `p` is a standalone-bounded occurrence: the pattern
occurs at `p` and on each side that exists inside the string the
neighbouring character is a punctuation mark (a string edge qualifies). -/
def standaloneBoundedB (str pat : List Char) (p : Nat) : Bool :=
  occursAt str pat p &&
  (p == 0 ||
    (match str[p - 1]? with
     | some c => isCharPunctuationMark c
     | none => false)) &&
  (p + pat.length == str.length ||
    (match str[p + pat.length]? with
     | some c => isCharPunctuationMark c
     | none => false))

/-- The source recursion at this argument never returns, whatever the step
budget: the empty-pattern search advances the cursor by zero. -/
def searchDiverges (str pat : List Char) (pos : Nat) : Prop :=
  ∀ fuel, findStandaloneNextMatchPositionF fuel str pat pos = SearchRes.outOfFuel

end StringHelper

namespace Colorize

/-- `eLog::Colorize::Colorize` (Easylog.hpp lines 593-598). -/
structure Colorize where
  str : List Char
  color : AsciiColor.ColorEnum
  replaceAllMatching : Bool
deriving DecidableEq, Repr

/-- `eLog::Colorize::createColorizedString` (Easylog.hpp lines 627-634);
the `.ok` payload is the colorized string. -/
def createColorizedString (beginColor : List Char) (str : StringHelper.ColorizedString)
    (colorizedStrings : List Colorize) : StringHelper.RepRes :=
  StringHelper.colorize
    (colorizedStrings.foldl
      (fun s c => StringHelper.setColor beginColor s c.str c.color c.replaceAllMatching)
      str)

end Colorize

namespace LogLevel

/-- The seed of `eLog::LogLevel::Impl::Data::LogLevels`
(Easylog.hpp lines 832-839), as an association list (the container is an
`std::unordered_map` keyed by the level name). -/
def LogLevels : List (String × AsciiColor.ColorEnum) :=
  [ ("TRACE", AsciiColor.ColorEnum.BOLD_CYAN)
  , ("DEBUG", AsciiColor.ColorEnum.BOLD_BLUE)
  , ("INFO", AsciiColor.ColorEnum.BOLD_GREEN)
  , ("WARNING", AsciiColor.ColorEnum.BOLD_YELLOW)
  , ("ERROR", AsciiColor.ColorEnum.BOLD_RED)
  , ("FATAL", AsciiColor.ColorEnum.BOLD_MAGENTA) ]

/-- `eLog::LogLevel::getLogLevelString` (Easylog.hpp lines 851-878),
parameterised by the current registry contents.  In the non-colorized
branch for an unknown level the source executes `sputn("UNKNOWN", 8)`:
the char array `"UNKNOWN"` has 8 bytes, so the 8th written byte is the
terminating NUL. -/
def getLogLevelString (levels : List (String × AsciiColor.ColorEnum))
    (logLevel : String) (colorize : Bool) : List Char :=
  let it := levels.find? (fun p => p.1 == logLevel)
  if colorize then
    (match it with
     | some p => AsciiColor.asciiAt p.2 ++ logLevel.toList
     | none => AsciiColor.asciiAt AsciiColor.ColorEnum.BOLD_WHITE ++ "UNKNOWN".toList)
    ++ AsciiColor.ResetColor
  else
    match it with
    | some _ => logLevel.toList
    | none => "UNKNOWN".toList ++ [Char.ofNat 0]

end LogLevel

namespace State

/-- `eLog::State::Impl::Data` of the single-header version
(Easylog.hpp lines 671-700); the mutex is runtime-only and not part of the
value state. -/
structure Data where
  FileLoggerName : String
  IsFileLogEnabled : Bool
  IsConsoleLogEnabled : Bool
  IsColorEnabled : Bool
  UseDefaultFileLog : Bool
  DirectFlush : Bool
  BufferLogEnabled : Bool
  BufferLog : Bool
  BufferLogLabel : Bool
  BufferFileLog : Bool
  BufferFileLogLabel : Bool
  ThreadedLog : Bool
deriving DecidableEq, Repr

/-- `eLog::State::Impl::IsBuffering` (Easylog.hpp lines 709-711). -/
def IsBuffering (d : Data) : Bool :=
  d.BufferLog || d.BufferLogLabel || d.BufferFileLog || d.BufferFileLogLabel

/-- `eLog::State::StateEnum` of the single-header version
(Easylog.hpp lines 723-734): nine states.  The extended fifteen-state enum
lives in the library version, embedded below as `libBuild.State.StateEnum`. -/
inductive StateEnum where
  | TERMINAL_LOG
  | FILE_LOG
  | DEFAULT_FILE_LOG
  | DIRECT_FLUSH
  | BUFFER_LOG
  | BUFFER_LOG_LABEL
  | BUFFER_FILE_LOG
  | BUFFER_FILE_LOG_LABEL
  | THREADED_LOG
deriving DecidableEq, Repr

end State

namespace LogInfo

/-- The inputs that `eLog::LogInfo::getLogInfo` captures from the runtime
(source location and wall clock); they are external collaborators of the
core, so the embedding takes them as data. -/
structure LogInfo where
  mColor : List Char
  mFile : List Char
  mFunction : List Char
  mLine : List Char
  mDate : List Char
  mTime : List Char
deriving DecidableEq, Repr

/-- `eLog::LogInfo::fillBaseFormat` of the single-header version
(Easylog.hpp lines 940-953): every field is emitted unconditionally. -/
def fillBaseFormat (file function line date time : List Char) : List Char :=
  "[".toList ++ date ++ " | ".toList ++ time ++ " | ".toList ++ file ++
  " | ".toList ++ function ++ " | ".toList ++ line ++ "]".toList

/-- `eLog::LogInfo::getFmtLogInfo` of the single-header version
(Easylog.hpp lines 963-970). -/
def getFmtLogInfo (logInfo : LogInfo) (colorize : Bool) : List Char :=
  (if colorize then logInfo.mColor else []) ++
  fillBaseFormat logInfo.mFile logInfo.mFunction logInfo.mLine logInfo.mDate logInfo.mTime ++
  (if colorize then AsciiColor.ResetColor else [])

end LogInfo

namespace LogImpl

/-- `eLog::LogImpl::fillLogBuffer` (Easylog.hpp lines 997-1032),
parameterised by the level registry and the captured call-site/clock data. -/
def fillLogBuffer (levels : List (String × AsciiColor.ColorEnum))
    (logLevel : String) (msg : List Char) (label : String)
    (info : LogInfo.LogInfo) (file : Bool) : List Char :=
  let logLevelString := LogLevel.getLogLevelString levels logLevel (!file)
  let fmtLogInfo := LogInfo.getFmtLogInfo info (!file)
  logLevelString ++ "\t: ".toList ++
  (if label ≠ "default" then "[".toList ++ label.toList ++ "]".toList ++ [' '] else []) ++
  fmtLogInfo ++ " : ".toList ++ msg ++ ['\n']

end LogImpl

namespace FileLogImpl

/-- A file stream's open mode (`std::ios_base::openmode`); only the
default `app` mode is used by the embedded code paths. -/
inductive OpenMode where
  | app
  | trunc
  | out
deriving DecidableEq, Repr

/-- `eLog::FileLogImpl::Impl::FileLogger` (Easylog.hpp lines 1142-1163);
the stream and mutex are runtime-only. -/
structure FileLogger where
  mOpenMode : OpenMode
  mPath : String
deriving DecidableEq, Repr

/-- `eLog::FileLogImpl::Impl::Data::DefaultFileLogger`
(Easylog.hpp line 1180). -/
def DefaultFileLogger : FileLogger :=
  { mOpenMode := OpenMode.app, mPath := "log.txt" }

/-- `eLog::FileLogImpl::GetFileLogger` (Easylog.hpp lines 1192-1202),
parameterised by the `FileLoggers` map contents. -/
def GetFileLogger (FileLoggers : List (String × FileLogger))
    (FileLoggerName : String) : FileLogger :=
  if FileLoggerName = "" then DefaultFileLogger
  else
    match FileLoggers.find? (fun p => p.1 == FileLoggerName) with
    | some p => p.2
    | none => DefaultFileLogger

/-- `eLog::State::AddCustomFileLogger` (Easylog.hpp lines 1733-1738):
`try_emplace` semantics — insert-if-absent, returning the success flag. -/
def AddCustomFileLogger (FileLoggers : List (String × FileLogger))
    (FileLoggerName : String) (path : String) (openMode : OpenMode) :
    List (String × FileLogger) × Bool :=
  if (FileLoggers.find? (fun p => p.1 == FileLoggerName)).isSome then
    (FileLoggers, false)
  else
    (FileLoggers ++ [(FileLoggerName, { mOpenMode := openMode, mPath := path })], true)

/-- The file-logger handle that `eLog::FileLogImpl::log`
(Easylog.hpp lines 1214-1245) writes to: the default logger when
`UseDefaultFileLog` is set, otherwise the logger resolved from the
selected name. -/
def logTarget (UseDefaultFileLog : Bool) (FileLoggerName : String)
    (FileLoggers : List (String × FileLogger)) : FileLogger :=
  if UseDefaultFileLog then DefaultFileLogger
  else GetFileLogger FileLoggers FileLoggerName

end FileLogImpl

namespace LogBufferImpl

/-- `eLog::LogBufferImpl::Impl::Data` (Easylog.hpp lines 1283-1296): the
four buffer containers (the label-keyed ones are `std::unordered_map`s,
embedded as association lists). -/
structure BufferData where
  mLogBuffer : List (List Char)
  mFileLogBuffer : List (List Char)
  mLogBufferLabel : List (String × List (List Char))
  mFileLogBufferLabel : List (String × List (List Char))
deriving DecidableEq, Repr

/-- `map[label].emplace_back(v)`: `operator[]` default-constructs the
vector for an absent key, then the line is appended. -/
def mapAppend (m : List (String × List (List Char))) (key : String) (v : List Char) :
    List (String × List (List Char)) :=
  match m.find? (fun p => p.1 == key) with
  | some _ => m.map (fun p => if p.1 == key then (p.1, p.2 ++ [v]) else p)
  | none => m ++ [(key, [v])]

/-- `eLog::LogBufferImpl::log` (Easylog.hpp lines 1309-1330) acting on the
buffer state; `out` abbreviates the rendered line
`fillLogBuffer(level, msg, label, src)`.  Both branches of the
`label == "default"` test are identical in the source and are kept so. -/
def log (d : State.Data) (levels : List (String × AsciiColor.ColorEnum))
    (level : String) (msg : List Char) (label : String)
    (info : LogInfo.LogInfo) (b : BufferData) : BufferData :=
  let out := LogImpl.fillLogBuffer levels level msg label info false
  if label = "default" then
    let b := if d.BufferLog then { b with mLogBuffer := b.mLogBuffer ++ [out] } else b
    let b := if d.BufferLogLabel then
        { b with mLogBufferLabel := mapAppend b.mLogBufferLabel label out } else b
    b
  else
    let b := if d.BufferLog then { b with mLogBuffer := b.mLogBuffer ++ [out] } else b
    let b := if d.BufferLogLabel then
        { b with mLogBufferLabel := mapAppend b.mLogBufferLabel label out } else b
    b

/-- `eLog::LogBufferImpl::fileLog` (Easylog.hpp lines 1342-1363) acting on
the buffer state.  The body is the same as `log`: it tests `BufferLog` /
`BufferLogLabel` and appends to `mLogBuffer` / `mLogBufferLabel`; neither
`BufferFileLog` nor the file buffers appear in it. -/
def fileLog (d : State.Data) (levels : List (String × AsciiColor.ColorEnum))
    (level : String) (msg : List Char) (label : String)
    (info : LogInfo.LogInfo) (b : BufferData) : BufferData :=
  let out := LogImpl.fillLogBuffer levels level msg label info false
  if label = "default" then
    let b := if d.BufferLog then { b with mLogBuffer := b.mLogBuffer ++ [out] } else b
    let b := if d.BufferLogLabel then
        { b with mLogBufferLabel := mapAppend b.mLogBufferLabel label out } else b
    b
  else
    let b := if d.BufferLog then { b with mLogBuffer := b.mLogBuffer ++ [out] } else b
    let b := if d.BufferLogLabel then
        { b with mLogBufferLabel := mapAppend b.mLogBufferLabel label out } else b
    b

end LogBufferImpl

namespace ThreadLog

/-- The message string that reaches `CLogImpl::log` for a colorized log
call, as a function of the threading mode.

Synchronous mode (`logCustom`, Easylog.hpp lines 2280-2286): the `else`
branch calls `CLogImpl::log(level, msg, label, src)` — the `colorStack`
argument is not used, so the raw `msg` is dispatched.

Threaded mode: `makeTask` (lines 1473-1478) stores `msg` and the
`colorStack` in the task, and `loggerThreadFunc` (lines 1513-1548)
rebuilds the colorized message with `Colorize::createColorizedString`
before calling `CLogImpl::log`. -/
def logCustomDispatchedMsg (beginColor : List Char) (ThreadedLog : Bool)
    (msg : List Char) (colorStack : List Colorize.Colorize) : StringHelper.RepRes :=
  if ThreadedLog then
    Colorize.createColorizedString beginColor { mStr := msg, mReplaceStrings := [] } colorStack
  else
    StringHelper.RepRes.ok msg

end ThreadLog

namespace libBuild

namespace State

/-- `eLog::State::Impl::Data` of the library version
(libBuild/EasyLog.hpp lines 427-449). -/
structure Data where
  FileLoggerName : String
  IsFileLogEnabled : Bool
  IsConsoleLogEnabled : Bool
  IsColorEnabled : Bool
  UseDefaultFileLog : Bool
  DirectFlush : Bool
  BufferLogEnabled : Bool
  BufferLog : Bool
  BufferLogLabel : Bool
  BufferFileLog : Bool
  BufferFileLogLabel : Bool
  ThreadedLog : Bool
  BufferSize : Nat
  UseTime : Bool
  UseDate : Bool
  UseFile : Bool
  UseFunction : Bool
  UseLine : Bool
  COLORLESS : Bool
deriving DecidableEq, Repr

/-- `eLog::State::Impl::IsBuffering` (libBuild/EasyLog.cpp lines 238-241). -/
def IsBuffering (d : Data) : Bool :=
  d.BufferLog || d.BufferLogLabel || d.BufferFileLog || d.BufferFileLogLabel

/-- `eLog::State::Impl::UseFormat` (libBuild/EasyLog.cpp lines 243-246). -/
def UseFormat (d : Data) : Bool :=
  d.UseTime || d.UseDate || d.UseFile || d.UseFunction || d.UseLine

/-- `eLog::State::StateEnum` of the library version
(libBuild/EasyLog.hpp lines 483-500): fifteen states. -/
inductive StateEnum where
  | TERMINAL_LOG
  | FILE_LOG
  | DEFAULT_FILE_LOG
  | DIRECT_FLUSH
  | BUFFER_LOG
  | BUFFER_LOG_LABEL
  | BUFFER_FILE_LOG
  | BUFFER_FILE_LOG_LABEL
  | THREADED_LOG
  | USE_TIME
  | USE_DATE
  | USE_FILE
  | USE_FUNCTION
  | USE_LINE
  | COLORLESS
deriving DecidableEq, Repr

/-- `eLog::State::SetState` (libBuild/EasyLog.cpp lines 724-785) acting on
the state record.  The `THREADED_LOG` case additionally starts or stops
the worker thread at runtime; the thread itself is not part of the value
state. -/
def SetState (state : StateEnum) (isEnabled : Bool) (d : Data) : Data :=
  match state with
  | StateEnum.TERMINAL_LOG => { d with IsConsoleLogEnabled := isEnabled }
  | StateEnum.FILE_LOG => { d with IsFileLogEnabled := isEnabled }
  | StateEnum.DEFAULT_FILE_LOG => { d with UseDefaultFileLog := isEnabled }
  | StateEnum.DIRECT_FLUSH => { d with DirectFlush := isEnabled }
  | StateEnum.BUFFER_LOG =>
    let d := { d with BufferLog := isEnabled }
    { d with BufferLogEnabled := IsBuffering d }
  | StateEnum.BUFFER_LOG_LABEL =>
    let d := { d with BufferLogLabel := isEnabled }
    { d with BufferLogEnabled := IsBuffering d }
  | StateEnum.BUFFER_FILE_LOG =>
    let d := { d with BufferFileLog := isEnabled }
    { d with BufferLogEnabled := IsBuffering d }
  | StateEnum.BUFFER_FILE_LOG_LABEL =>
    let d := { d with BufferFileLogLabel := isEnabled }
    { d with BufferLogEnabled := IsBuffering d }
  | StateEnum.THREADED_LOG => { d with ThreadedLog := isEnabled }
  | StateEnum.USE_DATE => { d with UseDate := isEnabled }
  | StateEnum.USE_TIME => { d with UseTime := isEnabled }
  | StateEnum.USE_FILE => { d with UseFile := isEnabled }
  | StateEnum.USE_FUNCTION => { d with UseFunction := isEnabled }
  | StateEnum.USE_LINE => { d with UseLine := isEnabled }
  | StateEnum.COLORLESS => { d with COLORLESS := isEnabled }

end State

namespace LogInfo

/-- `eLog::LogInfo::fillBaseFormat` of the library version
(libBuild/EasyLog.cpp lines 354-382): each field together with its
`" | "` separator is emitted only when its include-flag is set. -/
def fillBaseFormat (d : State.Data) (file function line date time : List Char) :
    List Char :=
  "[".toList ++
  (if d.UseDate then date ++ " | ".toList else []) ++
  (if d.UseTime then time ++ " | ".toList else []) ++
  (if d.UseFile then file ++ " | ".toList else []) ++
  (if d.UseFunction then function ++ " | ".toList else []) ++
  (if d.UseLine then line else []) ++
  "]".toList

/-- `eLog::LogInfo::getFmtLogInfo` of the library version
(libBuild/EasyLog.cpp lines 384-394): when every include-flag is off
(`UseFormat` false) nothing at all is emitted. -/
def getFmtLogInfo (d : State.Data) (info : eLog.LogInfo.LogInfo) (colorize : Bool) :
    List Char :=
  if State.UseFormat d then
    (if colorize && !d.COLORLESS then info.mColor else []) ++
    fillBaseFormat d info.mFile info.mFunction info.mLine info.mDate info.mTime ++
    (if colorize && !d.COLORLESS then AsciiColor.ResetColor else [])
  else []

end LogInfo

namespace LogImpl

/-- `eLog::LogImpl::fillLogBuffer` of the library version
(libBuild/EasyLog.cpp lines 404-440); the level tag is rendered by the
library version of `getLogLevelString` (lines 312-337), which also
consults `COLORLESS` but writes the same bytes as the single-header
version when `COLORLESS` is off. -/
def getLogLevelString (d : State.Data)
    (levels : List (String × AsciiColor.ColorEnum))
    (logLevel : String) (colorize : Bool) : List Char :=
  let it := levels.find? (fun p => p.1 == logLevel)
  if colorize && !d.COLORLESS then
    (match it with
     | some p => AsciiColor.asciiAt p.2 ++ logLevel.toList
     | none => AsciiColor.asciiAt AsciiColor.ColorEnum.BOLD_WHITE ++ "UNKNOWN".toList)
    ++ AsciiColor.ResetColor
  else
    match it with
    | some _ => logLevel.toList
    | none => "UNKNOWN".toList ++ [Char.ofNat 0]

/-- `fillLogBuffer` of the library version. -/
def fillLogBuffer (d : State.Data) (levels : List (String × AsciiColor.ColorEnum))
    (logLevel : String) (msg : List Char) (label : String)
    (info : eLog.LogInfo.LogInfo) (file : Bool) : List Char :=
  let logLevelString := getLogLevelString d levels logLevel (!file)
  let fmtLogInfo := LogInfo.getFmtLogInfo d info (!file)
  logLevelString ++ "\t: ".toList ++
  (if label ≠ "default" then
    "[".toList ++ label.toList ++ "]".toList ++
    (if State.UseFormat d then [' '] else [])
  else []) ++
  fmtLogInfo ++ " : ".toList ++ msg ++ ['\n']

end LogImpl

end libBuild

namespace fmt

open StringHelper

/-- `eLog::fmt::Impl::IsNumber` (Easylog.hpp lines 1903-1906). -/
def IsNumber (str : List Char) : Bool :=
  !str.isEmpty && str.all Char.isDigit

/-- Value of a string of decimal digits. -/
def decVal (s : List Char) : Nat :=
  s.foldl (fun a c => a * 10 + (c.toNat - '0'.toNat)) 0

/-- `LLONG_MAX`: `std::stoll` throws `std::out_of_range` beyond it. -/
def LLONG_MAX : Nat := 9223372036854775807

/-- `INT_MAX`: `std::stoi` throws `std::out_of_range` beyond it. -/
def INT_MAX : Int := 2147483647

/-- One uppercase hex digit. -/
def hexDigitU (n : Nat) : Char :=
  if n < 10 then Char.ofNat ('0'.toNat + n) else Char.ofNat ('A'.toNat + (n - 10))

/-- Fuel-driven accumulator loop for the uppercase hex rendering. -/
def toHexUGo : Nat → Nat → List Char → List Char
  | 0, _, acc => acc
  | f + 1, n, acc => if n = 0 then acc else toHexUGo f (n / 16) (hexDigitU (n % 16) :: acc)

/-- Uppercase hex rendering of a value, as produced by
`ss << std::uppercase << std::hex << i` for a non-negative `i`. -/
def toHexU (n : Nat) : List Char :=
  if n = 0 then ['0'] else toHexUGo (n + 1) n []

/-- `eLog::fmt::Impl::stringToHex` (Easylog.hpp lines 1916-1927); `none`
models `std::stoll` throwing `std::out_of_range` on an overflowing digit
string. -/
def stringToHex (input : List Char) : Option (List Char) :=
  if !IsNumber input then some []
  else if input.contains '.' then some []
  else if LLONG_MAX < decVal input then none
  else some ("0x".toList ++ toHexU (decVal input))

/-- `std::stoi`: skip leading whitespace, optional sign, then a non-empty
digit run; `none` models `std::invalid_argument` (no digits) and
`std::out_of_range` (value outside `int`). -/
def cppStoi (s : List Char) : Option Int :=
  let s1 := s.dropWhile (fun c =>
    c == ' ' || c == '\t' || c == '\n' || c == Char.ofNat 11 || c == Char.ofNat 12 ||
    c == Char.ofNat 13)
  let (neg, s2) := match s1 with
    | '-' :: rest => (true, rest)
    | '+' :: rest => (false, rest)
    | rest => (false, rest)
  let ds := s2.takeWhile Char.isDigit
  if ds.isEmpty then none
  else
    let v : Int := if neg then -(decVal ds : Int) else (decVal ds : Int)
    if v < -(INT_MAX + 1) ∨ INT_MAX < v then none else some v

/-- `std::string::substr(pos, count)` for `pos ≤ size` (the count clamps). -/
def cppSubstr (s : List Char) (pos count : Nat) : List Char :=
  (s.drop pos).take count

/-- The precision parse shared by the `f` and `x` branches of `Format`:
`if(p + 1 <= fmt.size() && fmt[p + 1] != '}') precision = std::stoi(fmt.substr(p + 1, end));`
(`fmt[p + 1]` at index `size` is the NUL terminator of `std::string`,
which is a defined read). -/
def parsePrecision (fmtSpec : List Char) (p : Nat) (endN : Nat) (dflt : Int) :
    Option Int :=
  if p + 1 ≤ fmtSpec.length ∧ fmtSpec.getD (p + 1) (Char.ofNat 0) ≠ '}' then
    cppStoi (cppSubstr fmtSpec (p + 1) endN)
  else some dflt

/-- `hexVal.insert(posX + 1, cnt, '0')`. -/
def hexInsertPad (hexVal : List Char) (posX : Nat) (cnt : Nat) : List Char :=
  hexVal.take (posX + 1) ++ List.replicate cnt '0' ++ hexVal.drop (posX + 1)

/-- The hex arm of `Format` (Easylog.hpp lines 2039-2051) after the
precision has been parsed: convert, then pad.  The pad count
`precision - hexVal.size() + 2` is computed in `size_t`; when it is
negative as an integer it wraps to at least `2 ^ 64 - 2 ^ 31`, far beyond
`std::string::max_size()`, so the insertion throws `std::length_error` —
modelled as `none`. -/
def hexBranch (val : List Char) (precision : Int) : Option (List Char) :=
  match stringToHex val with
  | none => none
  | some hexVal =>
    match cppFind hexVal ['x'] 0 with
    | some posX =>
      if 1 ≤ precision then
        let cnt : Int := precision - (hexVal.length : Int) + 2
        if cnt < 0 then none
        else some (hexInsertPad hexVal posX cnt.toNat)
      else some hexVal
    | none => some hexVal

/-- The `f` arm of `Format` (lines 2026-2036) after the precision parse:
`vals[i].resize(posPersBegin + precision + 1, '0')`, with the same
`size_t` wrap consideration for a negative target size. -/
def floatBranch (val : List Char) (precision : Int) : Option (List Char) :=
  match cppFind val ['.'] 0 with
  | some posPersBegin =>
    let m : Int := (posPersBegin : Int) + precision + 1
    if m < 0 then none
    else some (val.take m.toNat ++ List.replicate (m.toNat - val.length) '0')
  | none => some val

/-- One iteration of the `Format` loop (Easylog.hpp lines 2009-2053):
resolve the placeholder for argument `i` with text `val` in the current
`result`. -/
def formatStep (result : List Char) (i : Nat) (val : List Char) : Option (List Char) :=
  let key := "\x7b".toList ++ (toString i).toList ++ "\x7d".toList
  match cppFind result key 0 with
  | some pos => some (cppReplace result pos key.length val)
  | none =>
  match cppFind result "\x7b\x7d".toList 0 with
  | some pos => some (cppReplace result pos 2 val)
  | none =>
  match cppFind result "\x7b \x7d".toList 0 with
  | some pos => some (cppReplace result pos 3 val)
  | none =>
  match cppFind result "\x7b:".toList 0 with
  | none => some result
  | some pos =>
    let endN := cppFindN result "\x7d".toList pos
    let fmtSpec := cppSubstr result (pos + 2) (endN - pos)
    if fmtSpec.contains 'd' then
      some (cppReplace result pos (endN - pos + 1) val)
    else
      match cppFind fmtSpec ['f'] 0 with
      | some p =>
        match parsePrecision fmtSpec p endN 6 with
        | none => none
        | some precision =>
          match floatBranch val precision with
          | none => none
          | some val' => some (cppReplace result pos (endN - pos + 1) val')
      | none =>
        if fmtSpec.contains 's' then
          some (cppReplace result pos (endN - pos + 1) val)
        else
          match cppFind fmtSpec ['x'] 0 with
          | some p =>
            match parsePrecision fmtSpec p endN 0 with
            | none => none
            | some precision =>
              match hexBranch val precision with
              | none => none
              | some hexVal => some (cppReplace result pos (endN - pos + 1) hexVal)
          | none => some result

/-- The `Format` loop over the stringified arguments. -/
def FormatGo (result : List Char) (i : Nat) : List (List Char) → Option (List Char)
  | [] => some result
  | v :: vs =>
    match formatStep result i v with
    | none => none
    | some r => FormatGo r (i + 1) vs

/-- `eLog::fmt::Format` (Easylog.hpp lines 2004-2055) on the already
stringified argument texts (`Impl::ArgsToVector` feeds each argument
through `operator<<` before the loop runs); `none` models an exception
escaping `Format`. -/
def Format (fmt : List Char) (vals : List (List Char)) : Option (List Char) :=
  FormatGo fmt 0 vals

end fmt

end eLog



namespace eLog

namespace StringHelper

theorem occursAt_le {str pat : List Char} {i : Nat} (h : occursAt str pat i = true) :
    i + pat.length ≤ str.length := by
  simp only [occursAt, Bool.and_eq_true, decide_eq_true_eq] at h
  exact h.1

theorem occursAt_take_drop {str pat : List Char} {i : Nat}
    (h : occursAt str pat i = true) : (str.drop i).take pat.length = pat := by
  simp only [occursAt, Bool.and_eq_true, beq_iff_eq] at h
  exact h.2

theorem cppFindGo_some {str pat : List Char} {i k j : Nat}
    (h : cppFindGo str pat i k = some j) :
    i ≤ j ∧ occursAt str pat j = true := by
  induction k generalizing i with
  | zero => simp [cppFindGo] at h
  | succ k ih =>
    rw [cppFindGo] at h
    by_cases hocc : occursAt str pat i = true
    · rw [if_pos hocc] at h
      injection h with h
      exact ⟨le_of_eq h, h ▸ hocc⟩
    · rw [if_neg hocc] at h
      obtain ⟨h1, h2⟩ := ih h
      exact ⟨le_trans (Nat.le_succ i) h1, h2⟩

theorem cppFind_some {str pat : List Char} {pos j : Nat}
    (h : cppFind str pat pos = some j) :
    pos ≤ j ∧ occursAt str pat j = true :=
  cppFindGo_some h

theorem cppFind_some_le {str pat : List Char} {pos j : Nat}
    (h : cppFind str pat pos = some j) : j + pat.length ≤ str.length :=
  occursAt_le (cppFind_some h).2

/-- Bounds on a found position of the standalone search. -/
theorem findNextF_found_bounds {fuel : Nat} {str pat : List Char} {pos p : Nat}
    (h : findStandaloneNextMatchPositionF fuel str pat pos = SearchRes.found p) :
    pos ≤ p ∧ p + pat.length ≤ str.length := by
  induction fuel generalizing pos with
  | zero => simp [findStandaloneNextMatchPositionF] at h
  | succ fuel ih =>
    rw [findStandaloneNextMatchPositionF] at h
    cases hfind : cppFind str pat pos with
    | none => rw [hfind] at h; simp at h
    | some nextPos =>
      simp only [hfind] at h
      obtain ⟨hle, hocc⟩ := cppFind_some hfind
      have hlen := occursAt_le hocc
      split at h
      · split at h
        · exact absurd h (by simp)
        · split at h
          · injection h with h
            omega
          · obtain ⟨h1, h2⟩ := ih h
            exact ⟨by omega, h2⟩
      · split at h
        · split at h
          · exact absurd h (by simp)
          · split at h
            · injection h with h
              omega
            · obtain ⟨h1, h2⟩ := ih h
              exact ⟨by omega, h2⟩
        · split at h
          · split at h
            · injection h with h
              omega
            · obtain ⟨h1, h2⟩ := ih h
              exact ⟨by omega, h2⟩
          · exact absurd h (by simp)

/-- The fuel bound `str.length + 1 - pos` suffices for a non-empty pattern:
each recursive call advances the cursor by at least one position. -/
theorem findNextF_fuel_sufficient {fuel : Nat} {str pat : List Char} {pos : Nat}
    (hpat : pat ≠ []) (h1 : 1 ≤ fuel) (h2 : str.length + 1 ≤ fuel + pos) :
    findStandaloneNextMatchPositionF fuel str pat pos ≠ SearchRes.outOfFuel := by
  induction fuel generalizing pos with
  | zero => omega
  | succ fuel ih =>
    rw [findStandaloneNextMatchPositionF]
    cases hfind : cppFind str pat pos with
    | none => simp [hfind]
    | some nextPos =>
      simp only [hfind]
      obtain ⟨hle, hocc⟩ := cppFind_some hfind
      have hlen := occursAt_le hocc
      have hpatlen : 1 ≤ pat.length := by
        cases pat with
        | nil => exact absurd rfl hpat
        | cons a l => simp
      split
      · split
        · simp
        · split
          · simp
          · apply ih <;> omega
      · split
        · split
          · simp
          · split
            · simp
            · apply ih <;> omega
        · split
          · split
            · simp
            · apply ih <;> omega
          · simp

/-- The wrapper never runs out of fuel on a non-empty pattern. -/
theorem findNext_ne_outOfFuel {str pat : List Char} {pos : Nat} (hpat : pat ≠ []) :
    findStandaloneNextMatchPosition str pat pos ≠ SearchRes.outOfFuel :=
  findNextF_fuel_sufficient hpat (by omega) (by omega)

/-- The only out-of-bounds read of the recursive search is the
`nextPos == 0` branch reading `str[match.length]` when the pattern is the
whole string: for `pat ≠ str` every read is in bounds. -/
theorem findNextF_ne_oobRead {fuel : Nat} {str pat : List Char} {pos : Nat}
    (hps : pat ≠ str) :
    findStandaloneNextMatchPositionF fuel str pat pos ≠ SearchRes.oobRead := by
  induction fuel generalizing pos with
  | zero => simp [findStandaloneNextMatchPositionF]
  | succ fuel ih =>
    rw [findStandaloneNextMatchPositionF]
    cases hfind : cppFind str pat pos with
    | none => simp [hfind]
    | some nextPos =>
      simp only [hfind]
      obtain ⟨hle, hocc⟩ := cppFind_some hfind
      have hlen := occursAt_le hocc
      have htd := occursAt_take_drop hocc
      split
      · -- nextPos = 0: the trailing read is in bounds unless pat = str
        next h0 =>
        subst h0
        cases hread : str[0 + pat.length]? with
        | none =>
          exfalso
          rw [List.getElem?_eq_none_iff] at hread
          have hplen : pat.length = str.length := by omega
          apply hps
          rw [← htd]
          simp [hplen]
        | some c =>
          simp only [hread]
          split
          · simp
          · exact ih
      · split
        · -- nextPos = str.length - pat.length, nextPos ≠ 0: leading read in bounds
          cases hread : str[nextPos - 1]? with
          | none =>
            exfalso
            rw [List.getElem?_eq_none_iff] at hread
            next h0 _ => omega
          | some c =>
            simp only [hread]
            split
            · simp
            · exact ih
        · -- middle: both reads in bounds
          next h0 hend =>
          cases hr1 : str[nextPos - 1]? with
          | none =>
            exfalso
            rw [List.getElem?_eq_none_iff] at hr1
            omega
          | some c1 =>
            cases hr2 : str[nextPos + pat.length]? with
            | none =>
              exfalso
              rw [List.getElem?_eq_none_iff] at hr2
              exact hend (by omega)
            | some c2 =>
              simp only [hr1, hr2]
              split
              · simp
              · exact ih

/-- Every position the recursive search reports is a standalone-bounded
occurrence. -/
theorem findNextF_found_sound {fuel : Nat} {str pat : List Char} {pos p : Nat}
    (h : findStandaloneNextMatchPositionF fuel str pat pos = SearchRes.found p) :
    standaloneBoundedB str pat p = true := by
  induction fuel generalizing pos with
  | zero => simp [findStandaloneNextMatchPositionF] at h
  | succ fuel ih =>
    rw [findStandaloneNextMatchPositionF] at h
    cases hfind : cppFind str pat pos with
    | none => rw [hfind] at h; simp at h
    | some nextPos =>
      simp only [hfind] at h
      obtain ⟨hle, hocc⟩ := cppFind_some hfind
      have hlen := occursAt_le hocc
      split at h
      · next h0 =>
        subst h0
        split at h
        · simp at h
        · next c hread =>
          split at h
          · next hp =>
            injection h with h
            subst h
            simp_all [standaloneBoundedB]
          · exact ih h
      · split at h
        · next h0 hend =>
          split at h
          · simp at h
          · next c hread =>
            split at h
            · next hp =>
              injection h with h
              subst h
              have hpe : nextPos + pat.length = str.length := by omega
              simp_all [standaloneBoundedB]
            · exact ih h
        · split at h
          · next c1 c2 hr1 hr2 =>
            split at h
            · next hp =>
              injection h with h
              subst h
              rw [Bool.and_eq_true] at hp
              simp_all [standaloneBoundedB]
            · exact ih h
          · simp at h

theorem standaloneBoundedB_left {str pat : List Char} {c : Char}
    (hocc : occursAt str pat 0 = true) (hread : str[0 + pat.length]? = some c)
    (hp : isCharPunctuationMark c = true) : standaloneBoundedB str pat 0 = true := by
  simp only [standaloneBoundedB, Bool.and_eq_true, Bool.or_eq_true, beq_iff_eq]
  refine ⟨⟨hocc, Or.inl trivial⟩, Or.inr ?_⟩
  simp only [Nat.zero_add] at hread
  simp [hread, hp]

theorem standaloneBoundedB_right {str pat : List Char} {p : Nat} {c : Char}
    (hocc : occursAt str pat p = true) (hpe : p + pat.length = str.length)
    (hread : str[p - 1]? = some c)
    (hp : isCharPunctuationMark c = true) : standaloneBoundedB str pat p = true := by
  simp only [standaloneBoundedB, Bool.and_eq_true, Bool.or_eq_true, beq_iff_eq]
  exact ⟨⟨hocc, Or.inr (by simp [hread, hp])⟩, Or.inl hpe⟩

theorem standaloneBoundedB_middle {str pat : List Char} {p : Nat} {c1 c2 : Char}
    (hocc : occursAt str pat p = true)
    (hr1 : str[p - 1]? = some c1) (hr2 : str[p + pat.length]? = some c2)
    (hp1 : isCharPunctuationMark c1 = true) (hp2 : isCharPunctuationMark c2 = true) :
    standaloneBoundedB str pat p = true := by
  simp only [standaloneBoundedB, Bool.and_eq_true, Bool.or_eq_true, beq_iff_eq]
  exact ⟨⟨hocc, Or.inr (by simp [hr1, hp1])⟩, Or.inr (by simp [hr2, hp2])⟩

/-- A sufficient fuel bound for the position-collecting loop on a
non-empty pattern. -/
theorem findPositionsF_ne_outOfFuel {str pat : List Char} (hpat : pat ≠ []) :
    ∀ (fuel : Nat) (posOpt : Option Nat) (acc : List Nat), 1 ≤ fuel →
    (∀ q, posOpt = some q → occursAt str pat q = true ∧ str.length + 1 ≤ fuel + q) →
    findStandaloneMatchPositionsF fuel str pat posOpt acc ≠ PosRes.outOfFuel := by
  intro fuel
  induction fuel with
  | zero => intro posOpt acc h1 _; omega
  | succ fuel ih =>
    intro posOpt acc h1 hinv
    cases posOpt with
    | none => simp [findStandaloneMatchPositionsF]
    | some pos =>
      rw [findStandaloneMatchPositionsF]
      obtain ⟨hocc, hfp⟩ := hinv pos rfl
      have hlen := occursAt_le hocc
      have hpatlen : 1 ≤ pat.length := by
        cases pat with
        | nil => exact absurd rfl hpat
        | cons a l => simp
      have hrec : ∀ acc', findStandaloneMatchPositionsF fuel str pat
          (cppFind str pat (pos + pat.length)) acc' ≠ PosRes.outOfFuel := by
        intro acc'
        apply ih _ acc' (by omega)
        intro q hq
        obtain ⟨hq1, hq2⟩ := cppFind_some hq
        exact ⟨hq2, by omega⟩
      split
      · split
        · simp
        · exact hrec _
      · split
        · split
          · simp
          · exact hrec _
        · split
          · exact hrec _
          · simp

/-- For `pat ≠ str` the position-collecting loop reads only valid
indices. -/
theorem findPositionsF_ne_oobRead {str pat : List Char} (hps : pat ≠ str) :
    ∀ (fuel : Nat) (posOpt : Option Nat) (acc : List Nat),
    (∀ q, posOpt = some q → occursAt str pat q = true) →
    findStandaloneMatchPositionsF fuel str pat posOpt acc ≠ PosRes.oobRead := by
  intro fuel
  induction fuel with
  | zero => intro posOpt acc _; simp [findStandaloneMatchPositionsF]
  | succ fuel ih =>
    intro posOpt acc hinv
    cases posOpt with
    | none => simp [findStandaloneMatchPositionsF]
    | some pos =>
      rw [findStandaloneMatchPositionsF]
      have hocc := hinv pos rfl
      have hlen := occursAt_le hocc
      have htd := occursAt_take_drop hocc
      have hrec : ∀ acc', findStandaloneMatchPositionsF fuel str pat
          (cppFind str pat (pos + pat.length)) acc' ≠ PosRes.oobRead := by
        intro acc'
        exact ih _ acc' (fun q hq => (cppFind_some hq).2)
      split
      · next h0 =>
        subst h0
        cases hread : str[0 + pat.length]? with
        | none =>
          exfalso
          rw [List.getElem?_eq_none_iff] at hread
          have hplen : pat.length = str.length := by omega
          apply hps
          rw [← htd]
          simp [hplen]
        | some c =>
          simp only [hread]
          exact hrec _
      · split
        · next h0 hend =>
          cases hread : str[pos - 1]? with
          | none =>
            exfalso
            rw [List.getElem?_eq_none_iff] at hread
            omega
          | some c =>
            simp only [hread]
            exact hrec _
        · next h0 hend =>
          cases hr1 : str[pos - 1]? with
          | none =>
            exfalso
            rw [List.getElem?_eq_none_iff] at hr1
            omega
          | some c1 =>
            cases hr2 : str[pos + pat.length]? with
            | none =>
              exfalso
              rw [List.getElem?_eq_none_iff] at hr2
              exact hend (by omega)
            | some c2 =>
              simp only [hr1, hr2]
              exact hrec _

/-- Every position the collecting loop reports is a standalone-bounded
occurrence. -/
theorem findPositionsF_sound {str pat : List Char} :
    ∀ (fuel : Nat) (posOpt : Option Nat) (acc l : List Nat),
    findStandaloneMatchPositionsF fuel str pat posOpt acc = PosRes.ok l →
    (∀ q, posOpt = some q → occursAt str pat q = true) →
    (∀ q ∈ acc, standaloneBoundedB str pat q = true) →
    ∀ q ∈ l, standaloneBoundedB str pat q = true := by
  intro fuel
  induction fuel with
  | zero => intro posOpt acc l h; simp [findStandaloneMatchPositionsF] at h
  | succ fuel ih =>
    intro posOpt acc l h hinv hacc
    cases posOpt with
    | none =>
      rw [findStandaloneMatchPositionsF] at h
      injection h with h
      exact h ▸ hacc
    | some pos =>
      rw [findStandaloneMatchPositionsF] at h
      have hocc := hinv pos rfl
      have hlen := occursAt_le hocc
      split at h
      · next h0 =>
        subst h0
        split at h
        · simp at h
        · next c hread =>
          apply ih _ _ _ h (fun q hq => (cppFind_some hq).2)
          split
          · next hp =>
            intro q hq
            rcases List.mem_append.mp hq with hq | hq
            · exact hacc q hq
            · rw [List.mem_singleton] at hq
              subst hq
              exact standaloneBoundedB_left hocc hread hp
          · exact hacc
      · split at h
        · next h0 hend =>
          cases hread : str[pos - 1]? with
          | none => simp [hread] at h
          | some c =>
            simp only [hread] at h
            apply ih _ _ _ h (fun q hq => (cppFind_some hq).2)
            split
            · next hp =>
              intro q hq
              rcases List.mem_append.mp hq with hq | hq
              · exact hacc q hq
              · rw [List.mem_singleton] at hq
                subst hq
                exact standaloneBoundedB_right hocc (by omega) hread hp
            · exact hacc
        · next h0 hend =>
          cases hr1 : str[pos - 1]? with
          | none =>
            cases hr2 : str[pos + pat.length]? with
            | none => simp [hr1, hr2] at h
            | some c2 => simp [hr1, hr2] at h
          | some c1 =>
            cases hr2 : str[pos + pat.length]? with
            | none => simp [hr1, hr2] at h
            | some c2 =>
              simp only [hr1, hr2] at h
              apply ih _ _ _ h (fun q hq => (cppFind_some hq).2)
              split
              · next hp =>
                rw [Bool.and_eq_true] at hp
                intro q hq
                rcases List.mem_append.mp hq with hq | hq
                · exact hacc q hq
                · rw [List.mem_singleton] at hq
                  subst hq
                  exact standaloneBoundedB_middle hocc hr1 hr2 hp.1 hp.2
              · exact hacc

theorem cppReplace_length {str repl : List Char} {p cnt : Nat} (h : p ≤ str.length) :
    (cppReplace str p cnt repl).length = p + repl.length + (str.length - (p + cnt)) := by
  simp [cppReplace]
  omega

/-- The `replaceAllMatching` loop cannot exhaust its fuel on a non-empty
pattern: each iteration removes at least one pattern length from the part
of the string after the cursor. -/
theorem replaceAllLoopF_ne_outOfFuel {pat repl : List Char} (hpat : pat ≠ []) :
    ∀ (fuel : Nat) (str : List Char) (res : SearchRes), 1 ≤ fuel →
    (∀ p, res = SearchRes.found p → str.length + 1 ≤ fuel + p) →
    res ≠ SearchRes.outOfFuel →
    replaceAllLoopF fuel str pat repl res ≠ RepRes.outOfFuel := by
  intro fuel
  induction fuel with
  | zero => intro str res h1 _ _; omega
  | succ fuel ih =>
    intro str res h1 hinv hres
    cases res with
    | oobRead => simp [replaceAllLoopF]
    | outOfFuel => exact absurd rfl hres
    | npos => simp [replaceAllLoopF]
    | found p =>
      rw [replaceAllLoopF]
      have hp := hinv p rfl
      have hplen : 1 ≤ pat.length := by
        cases pat with
        | nil => exact absurd rfl hpat
        | cons a l => simp
      split
      · next hlt =>
        apply ih
        · omega
        · intro q hq
          rw [findStandaloneNextMatchPosition] at hq
          obtain ⟨hq1, hq2⟩ := findNextF_found_bounds hq
          have hlen' : (cppReplace str p pat.length repl).length =
              p + repl.length + (str.length - (p + pat.length)) :=
            cppReplace_length (by omega)
          omega
        · exact findNext_ne_outOfFuel hpat
      · simp

/-- `Replace` terminates (never exhausts the proved fuel bounds) for every
non-empty pattern. -/
theorem Replace_ne_outOfFuel {str pat repl : List Char} {all : Bool}
    (hpat : pat ≠ []) : Replace str pat repl all ≠ RepRes.outOfFuel := by
  rw [Replace]
  split
  · apply replaceAllLoopF_ne_outOfFuel hpat
    · omega
    · intro p _
      omega
    · exact findNext_ne_outOfFuel hpat
  · cases hres : findStandaloneNextMatchPosition str pat 0 with
    | found p => simp [hres]
    | npos => simp [hres]
    | oobRead => simp [hres]
    | outOfFuel => exact absurd hres (findNext_ne_outOfFuel hpat)

/-- When the search reports no standalone match, `Replace` returns the
base string unchanged. -/
theorem Replace_npos {str pat repl : List Char} {all : Bool}
    (h : findStandaloneNextMatchPosition str pat 0 = SearchRes.npos) :
    Replace str pat repl all = RepRes.ok str := by
  cases all with
  | false => simp [Replace, h]
  | true => simp [Replace, h, replaceAllLoopF]

theorem colorizeList_ne_outOfFuel : ∀ (rs : List ReplaceString) (str : List Char),
    (∀ r ∈ rs, r.mBaseString ≠ []) →
    colorizeList str rs ≠ RepRes.outOfFuel := by
  intro rs
  induction rs with
  | nil => intro str _; simp [colorizeList]
  | cons r rs ih =>
    intro str hne
    rw [colorizeList]
    cases hrep : Replace str r.mBaseString r.mReplaceString r.mReplaceAllMatching with
    | ok str' =>
      simp only [hrep]
      exact ih str' (fun x hx => hne x (List.mem_cons_of_mem r hx))
    | oobRead => simp only [hrep]; simp
    | outOfFuel => exact absurd hrep (Replace_ne_outOfFuel (hne r (List.mem_cons_self r rs)))

/-- Every entry `setColor` appends carries the target as its base string. -/
theorem setColor_mem {beg : List Char} {cs : ColorizedString} {t : List Char}
    {col : AsciiColor.ColorEnum} {all : Bool} {r : ReplaceString}
    (h : r ∈ (setColor beg cs t col all).mReplaceStrings) :
    r ∈ cs.mReplaceStrings ∨ r.mBaseString = t := by
  rw [setColor] at h
  split at h
  · exact Or.inl h
  · simp only [List.mem_append, List.mem_singleton] at h
    rcases h with h | h
    · exact Or.inl h
    · subst h
      exact Or.inr rfl

theorem foldl_setColor_baseStrings {beg : List Char} :
    ∀ (stack : List Colorize.Colorize) (cs : ColorizedString) (r : ReplaceString),
    r ∈ (stack.foldl
        (fun s c => setColor beg s c.str c.color c.replaceAllMatching) cs).mReplaceStrings →
    r ∈ cs.mReplaceStrings ∨ ∃ c ∈ stack, r.mBaseString = c.str := by
  intro stack
  induction stack with
  | nil => intro cs r h; exact Or.inl h
  | cons c cl ih =>
    intro cs r h
    rw [List.foldl_cons] at h
    rcases ih _ r h with h | ⟨c', hc', he⟩
    · rcases setColor_mem h with h | h
      · exact Or.inl h
      · exact Or.inr ⟨c, List.mem_cons_self _ _, h⟩
    · exact Or.inr ⟨c', List.mem_cons_of_mem _ hc', he⟩

/-- The whole colorization pipeline terminates whenever every range's
target is non-empty. -/
theorem createColorizedString_ne_outOfFuel {beg msg : List Char}
    {stack : List Colorize.Colorize} (hstack : ∀ c ∈ stack, c.str ≠ []) :
    Colorize.createColorizedString beg ⟨msg, []⟩ stack ≠ RepRes.outOfFuel := by
  rw [Colorize.createColorizedString, colorize]
  apply colorizeList_ne_outOfFuel
  intro r hr
  rcases foldl_setColor_baseStrings stack ⟨msg, []⟩ r hr with h | ⟨c, hc, he⟩
  · simp at h
  · rw [he]
    exact hstack c hc

/-- One non-matching step of the search from position `0`. -/
theorem findNextF_step_left {fuel : Nat} {str pat : List Char} {pos : Nat} {c : Char}
    (h1 : cppFind str pat pos = some 0)
    (h2 : str[0 + pat.length]? = some c) (h3 : isCharPunctuationMark c = false) :
    findStandaloneNextMatchPositionF (fuel + 1) str pat pos =
      findStandaloneNextMatchPositionF fuel str pat (0 + pat.length) := by
  rw [findStandaloneNextMatchPositionF]
  simp only [h1, if_true]
  simp only [h2]
  rw [if_neg (by simp [h3])]

theorem asciiColorsContains_true (c : AsciiColor.ColorEnum) :
    AsciiColor.asciiColorsContains c = true := by
  cases c <;> rfl

theorem setColor_mStr {beg : List Char} {cs : ColorizedString} {t : List Char}
    {col : AsciiColor.ColorEnum} {all : Bool} :
    (setColor beg cs t col all).mStr = cs.mStr := by
  rw [setColor]
  split <;> rfl

end StringHelper

end eLog


open eLog eLog.StringHelper eLog.AsciiColor in
/-- C5: corrected.  Every position the standalone-match search reports is
bounded on each existing side by a punctuation mark (string edges
qualify), and the two concrete examples hold ("cat" matches nowhere in
"concatenate cats" and exactly at position 4 in "the cat sat"); but the
search is not complete: candidates advance by the pattern length past a
rejected occurrence, so a bounded occurrence overlapping a rejected
earlier candidate is missed (see the counterexample), and an occurrence
that is the whole string is never reported. -/
theorem C5_standalone_match_soundness_and_examples :
    (∀ (fuel : Nat) (str pat : List Char) (pos p : Nat),
      eLog.StringHelper.findStandaloneNextMatchPositionF fuel str pat pos =
        eLog.StringHelper.SearchRes.found p →
      eLog.StringHelper.standaloneBoundedB str pat p = true) ∧
    (∀ (str pat : List Char) (l : List Nat) (q : Nat),
      eLog.StringHelper.findStandaloneMatchPositions str pat =
        eLog.StringHelper.PosRes.ok l →
      q ∈ l → eLog.StringHelper.standaloneBoundedB str pat q = true) ∧
    eLog.StringHelper.findStandaloneMatchPositions "concatenate cats".toList "cat".toList =
      eLog.StringHelper.PosRes.ok [] ∧
    eLog.StringHelper.findStandaloneMatchPositions "the cat sat".toList "cat".toList =
      eLog.StringHelper.PosRes.ok [4] ∧
    eLog.StringHelper.findStandaloneNextMatchPosition "the cat sat".toList "cat".toList 0 =
      eLog.StringHelper.SearchRes.found 4 := by
  refine ⟨?_, ?_, by decide, by decide, by decide⟩
  · intro fuel str pat pos p h
    exact findNextF_found_sound h
  · intro str pat l q h hq
    exact findPositionsF_sound _ _ _ _ h (fun r hr => (cppFind_some hr).2) (by simp) q hq

/-- Witness for C5: the soundness part applied at the "the cat sat"
example. -/
theorem C5_witness :
    eLog.StringHelper.findStandaloneNextMatchPositionF 12 "the cat sat".toList
      "cat".toList 0 = eLog.StringHelper.SearchRes.found 4 ∧
    eLog.StringHelper.standaloneBoundedB "the cat sat".toList "cat".toList 4 = true :=
  ⟨by decide, C5_standalone_match_soundness_and_examples.1 12 "the cat sat".toList
    "cat".toList 0 4 (by decide)⟩

/-- C5 counterexample: in "ab b b" the occurrence of "b b" at position 3 is
bounded by punctuation on its left and by the string edge on its right,
yet the search reports no match at all: the first candidate (position 1)
is rejected and the scan resumes at 1 + 3 = 4, skipping position 3. -/
theorem C5_counterexample :
    eLog.StringHelper.findStandaloneMatchPositions "ab b b".toList "b b".toList =
      eLog.StringHelper.PosRes.ok [] ∧
    eLog.StringHelper.standaloneBoundedB "ab b b".toList "b b".toList 3 = true ∧
    eLog.StringHelper.findStandaloneNextMatchPosition "ab b b".toList "b b".toList 0 =
      eLog.StringHelper.SearchRes.npos := by
  decide

open eLog eLog.StringHelper in
/-- C7: corrected.  The standalone search reads only valid indices as long
as the target is not the whole base string, and an absent match leaves the
base string unchanged; but for a target equal to the whole base string the
`nextPos == 0` branch reads `str[match.length]`, one past the end (see the
counterexample). -/
theorem C7_search_reads_in_bounds_unless_whole_string :
    (∀ (fuel : Nat) (str pat : List Char) (pos : Nat), pat ≠ str →
      eLog.StringHelper.findStandaloneNextMatchPositionF fuel str pat pos ≠
        eLog.StringHelper.SearchRes.oobRead) ∧
    (∀ (str pat : List Char), pat ≠ str →
      eLog.StringHelper.findStandaloneMatchPositions str pat ≠
        eLog.StringHelper.PosRes.oobRead) ∧
    (∀ (str pat repl : List Char) (all : Bool),
      eLog.StringHelper.findStandaloneNextMatchPosition str pat 0 =
        eLog.StringHelper.SearchRes.npos →
      eLog.StringHelper.Replace str pat repl all = eLog.StringHelper.RepRes.ok str) := by
  refine ⟨?_, ?_, ?_⟩
  · intro fuel str pat pos h
    exact findNextF_ne_oobRead h
  · intro str pat h
    exact findPositionsF_ne_oobRead h _ _ _ (fun q hq => (cppFind_some hq).2)
  · intro str pat repl all h
    exact Replace_npos h

/-- Witness for C7: in-bounds reading and the no-match no-op at concrete
inputs. -/
theorem C7_witness :
    eLog.StringHelper.findStandaloneNextMatchPositionF 12 "the cat sat".toList
      "cat".toList 0 ≠ eLog.StringHelper.SearchRes.oobRead ∧
    eLog.StringHelper.Replace "concatenate".toList "cat".toList "X".toList false =
      eLog.StringHelper.RepRes.ok "concatenate".toList :=
  ⟨C7_search_reads_in_bounds_unless_whole_string.1 12 "the cat sat".toList
      "cat".toList 0 (by decide),
   C7_search_reads_in_bounds_unless_whole_string.2.2 "concatenate".toList
      "cat".toList "X".toList false (by decide)⟩

/-- C7 counterexample: with the target equal to the whole base string the
search reads the one-past-the-end index (`str[str.length]`), so the
out-of-bounds branch of the total embedding is reached. -/
theorem C7_counterexample :
    eLog.StringHelper.findStandaloneNextMatchPosition "ab".toList "ab".toList 0 =
      eLog.StringHelper.SearchRes.oobRead ∧
    eLog.StringHelper.findStandaloneMatchPositions "cat".toList "cat".toList =
      eLog.StringHelper.PosRes.oobRead := by
  decide

open eLog eLog.StringHelper in
/-- C8: corrected.  The standalone search, the replace-all loop and the
whole colorization pipeline terminate for every range whose target is
non-empty; but a range with an empty target (and any in-palette colour —
the guard requires the colour to be invalid as well, and every enum value
is in the palette) reaches the recursive search with a zero-length
advance, which never returns (see the counterexample). -/
theorem C8_colorization_terminates_for_nonempty_targets :
    (∀ (str pat : List Char) (pos : Nat), pat ≠ [] →
      eLog.StringHelper.findStandaloneNextMatchPosition str pat pos ≠
        eLog.StringHelper.SearchRes.outOfFuel) ∧
    (∀ (str pat repl : List Char) (all : Bool), pat ≠ [] →
      eLog.StringHelper.Replace str pat repl all ≠
        eLog.StringHelper.RepRes.outOfFuel) ∧
    (∀ (beg msg : List Char) (stack : List eLog.Colorize.Colorize),
      (∀ c ∈ stack, c.str ≠ []) →
      eLog.Colorize.createColorizedString beg ⟨msg, []⟩ stack ≠
        eLog.StringHelper.RepRes.outOfFuel) :=
  ⟨fun _ _ _ h => findNext_ne_outOfFuel h,
   fun _ _ _ _ h => Replace_ne_outOfFuel h,
   fun _ _ _ h => createColorizedString_ne_outOfFuel h⟩

/-- Witness for C8: the pipeline terminates on a concrete one-range
colorization. -/
theorem C8_witness :
    eLog.Colorize.createColorizedString [] ⟨"the cat sat".toList, []⟩
      [⟨"cat".toList, eLog.AsciiColor.ColorEnum.RED, false⟩] ≠
      eLog.StringHelper.RepRes.outOfFuel :=
  C8_colorization_terminates_for_nonempty_targets.2.2 [] "the cat sat".toList
    [⟨"cat".toList, eLog.AsciiColor.ColorEnum.RED, false⟩] (by decide)

/-- C8 counterexample: an empty target with a valid colour passes the
`setColor` guard, and the resulting search diverges — no step budget makes
`findStandaloneNextMatchPosition("a", "", 0)` return, because the
recursion re-enters itself at the same cursor. -/
theorem C8_counterexample :
    eLog.StringHelper.searchDiverges "a".toList [] 0 ∧
    eLog.Colorize.createColorizedString [] ⟨"a".toList, []⟩
      [⟨[], eLog.AsciiColor.ColorEnum.RED, true⟩] =
      eLog.StringHelper.RepRes.outOfFuel := by
  constructor
  · intro fuel
    induction fuel with
    | zero => rfl
    | succ n ih =>
      rw [eLog.StringHelper.findNextF_step_left (c := 'a') (by decide) (by decide)
        (by decide)]
      exact ih
  · decide

/-- C9: code_bug.  For a level name missing from the registry the
colorized rendering emits the bold-white `UNKNOWN` tag plus a reset, but
the non-colorized branch executes `sputn("UNKNOWN", 8)` and so appends
eight bytes — the seven letters plus the array's terminating NUL — instead
of the bare seven characters the spec describes. -/
theorem C9_unknown_level_nul_terminator :
    eLog.LogLevel.getLogLevelString eLog.LogLevel.LogLevels "NOPE" false =
      "UNKNOWN".toList ++ [Char.ofNat 0] ∧
    eLog.LogLevel.getLogLevelString eLog.LogLevel.LogLevels "NOPE" false ≠
      "UNKNOWN".toList ∧
    (eLog.LogLevel.getLogLevelString eLog.LogLevel.LogLevels "NOPE" false).length = 8 ∧
    eLog.LogLevel.getLogLevelString eLog.LogLevel.LogLevels "NOPE" true =
      eLog.AsciiColor.asciiAt eLog.AsciiColor.ColorEnum.BOLD_WHITE ++
      "UNKNOWN".toList ++ eLog.AsciiColor.ResetColor := by
  decide

/-- C10: confirmed.  Resolving a file logger never fails: the empty name
and every unregistered name resolve to the always-existing default file
logger, so file logging after selecting an unregistered name with
`UseFileLogger` silently goes to the default log file. -/
theorem C10_unregistered_logger_resolves_to_default :
    (∀ loggers : List (String × eLog.FileLogImpl.FileLogger),
      eLog.FileLogImpl.GetFileLogger loggers "" = eLog.FileLogImpl.DefaultFileLogger) ∧
    (∀ (loggers : List (String × eLog.FileLogImpl.FileLogger)) (name : String),
      loggers.find? (fun p => p.1 == name) = none →
      eLog.FileLogImpl.GetFileLogger loggers name = eLog.FileLogImpl.DefaultFileLogger) ∧
    (∀ (useDefault : Bool) (loggers : List (String × eLog.FileLogImpl.FileLogger))
      (name : String),
      loggers.find? (fun p => p.1 == name) = none →
      eLog.FileLogImpl.logTarget useDefault name loggers =
        eLog.FileLogImpl.DefaultFileLogger) := by
  have key : ∀ (loggers : List (String × eLog.FileLogImpl.FileLogger)) (name : String),
      loggers.find? (fun p => p.1 == name) = none →
      eLog.FileLogImpl.GetFileLogger loggers name = eLog.FileLogImpl.DefaultFileLogger := by
    intro loggers name h
    rw [eLog.FileLogImpl.GetFileLogger]
    split
    · rfl
    · rw [h]
  refine ⟨?_, key, ?_⟩
  · intro loggers
    rw [eLog.FileLogImpl.GetFileLogger, if_pos rfl]
  · intro useDefault loggers name h
    rw [eLog.FileLogImpl.logTarget]
    split
    · rfl
    · exact key loggers name h

/-- Witness for C10: a registry holding only "custom" resolves "nope" to
the default logger. -/
theorem C10_witness :
    eLog.FileLogImpl.GetFileLogger
      [("custom", ⟨eLog.FileLogImpl.OpenMode.app, "c.log"⟩)] "nope" =
      eLog.FileLogImpl.DefaultFileLogger ∧
    eLog.FileLogImpl.logTarget false "nope"
      [("custom", ⟨eLog.FileLogImpl.OpenMode.app, "c.log"⟩)] =
      eLog.FileLogImpl.DefaultFileLogger :=
  ⟨C10_unregistered_logger_resolves_to_default.2.1 _ "nope" (by decide),
   C10_unregistered_logger_resolves_to_default.2.2 false _ "nope" (by decide)⟩


open eLog eLog.StringHelper eLog.AsciiColor in
/-- C1: code_bug.  The `colorStack` overload of `logCustom` only applies
the `TextColorizer` in threaded mode: its synchronous branch calls
`CLogImpl::log(level, msg, label, src)` and drops the colorize ranges, so
the uncolorized message is dispatched, while the worker thread rebuilds a
colorized message that differs from it. -/
theorem C1_sync_dispatch_skips_colorization :
    (∀ beg : List Char,
      eLog.ThreadLog.logCustomDispatchedMsg beg false "the cat sat".toList
        [⟨"cat".toList, eLog.AsciiColor.ColorEnum.RED, false⟩] =
        eLog.StringHelper.RepRes.ok "the cat sat".toList) ∧
    (∀ beg : List Char,
      eLog.ThreadLog.logCustomDispatchedMsg beg true "the cat sat".toList
        [⟨"cat".toList, eLog.AsciiColor.ColorEnum.RED, false⟩] ≠
        eLog.StringHelper.RepRes.ok "the cat sat".toList) := by
  constructor
  · intro beg
    rfl
  · intro beg h
    have hfind : findStandaloneNextMatchPosition "the cat sat".toList "cat".toList 0 =
        SearchRes.found 4 := by decide
    have hrep : ∀ repl : List Char,
        Replace "the cat sat".toList "cat".toList repl false =
          RepRes.ok ("the ".toList ++ repl ++ " sat".toList) := by
      intro repl
      rw [Replace, hfind]
      rfl
    have hset : setColor beg ⟨"the cat sat".toList, []⟩ "cat".toList
        AsciiColor.ColorEnum.RED false =
        ⟨"the cat sat".toList,
         [⟨"cat".toList,
           asciiAt AsciiColor.ColorEnum.RED ++ "cat".toList ++ ResetColor ++ beg,
           asciiAt AsciiColor.ColorEnum.RED, 7, false⟩]⟩ := rfl
    have hval : eLog.ThreadLog.logCustomDispatchedMsg beg true "the cat sat".toList
        [⟨"cat".toList, eLog.AsciiColor.ColorEnum.RED, false⟩] =
        RepRes.ok ("the ".toList ++
          (asciiAt AsciiColor.ColorEnum.RED ++ "cat".toList ++ ResetColor ++ beg) ++
          " sat".toList) := by
      show eLog.Colorize.createColorizedString beg ⟨"the cat sat".toList, []⟩ _ = _
      rw [eLog.Colorize.createColorizedString, List.foldl_cons, List.foldl_nil, hset,
        colorize]
      rw [colorizeList]
      simp only [hrep]
      rw [colorizeList]
    rw [hval] at h
    injection h with h
    have hlen := congrArg List.length h
    have l1 : ("the ".toList).length = 4 := rfl
    have l2 : (asciiAt AsciiColor.ColorEnum.RED).length = 5 := rfl
    have l3 : ("cat".toList).length = 3 := rfl
    have l4 : (ResetColor).length = 4 := rfl
    have l5 : (" sat".toList).length = 4 := rfl
    have l6 : ("the cat sat".toList).length = 11 := rfl
    simp only [List.length_append, l1, l2, l3, l4, l5, l6] at hlen
    omega

open eLog in
/-- C2: code_bug.  `LogBufferImpl::fileLog` never touches the file
buffers: its body is a copy of `log`, testing `BufferLog` /
`BufferLogLabel` and appending to the console buffers, so with
`BUFFER_FILE_LOG` enabled (and console buffering off) a dispatched
record changes no buffer at all and `GetFileLogBuffer`'s vector stays
empty. -/
theorem C2_fileLog_never_appends_to_file_buffers :
    (∀ (d : eLog.State.Data) (levels : List (String × eLog.AsciiColor.ColorEnum))
       (level : String) (msg : List Char) (label : String)
       (info : eLog.LogInfo.LogInfo) (b : eLog.LogBufferImpl.BufferData),
      (eLog.LogBufferImpl.fileLog d levels level msg label info b).mFileLogBuffer =
        b.mFileLogBuffer ∧
      (eLog.LogBufferImpl.fileLog d levels level msg label info b).mFileLogBufferLabel =
        b.mFileLogBufferLabel) ∧
    (∀ (levels : List (String × eLog.AsciiColor.ColorEnum)) (level : String)
       (msg : List Char) (label : String) (info : eLog.LogInfo.LogInfo)
       (b : eLog.LogBufferImpl.BufferData),
      eLog.LogBufferImpl.fileLog
        ⟨"", false, true, true, true, false, true, false, false, true, false, false⟩
        levels level msg label info b = b) := by
  constructor
  · intro d levels level msg label info b
    constructor <;>
      (simp only [eLog.LogBufferImpl.fileLog]; split <;> (split <;> split <;> rfl))
  · intro levels level msg label info b
    simp only [eLog.LogBufferImpl.fileLog]
    split <;> rfl

/-- C3: confirmed (of the library version in src/libBuild, which carries
the fifteen-state enum and the include-flags; the single-header version's
enum stops at THREADED_LOG).  `SetState` accepts each of the fifteen
states and toggles exactly the corresponding flag (recomputing the derived
`BufferLogEnabled` for the four buffer states), and the rendered line
drops each of date/time/file/function/line when its include-flag is off —
dropping the whole bracketed metadata block when all five are off. -/
theorem C3_fifteen_state_surface_and_metadata_omission :
    (∀ (b : Bool) (d : eLog.libBuild.State.Data),
      eLog.libBuild.State.SetState .TERMINAL_LOG b d =
        { d with IsConsoleLogEnabled := b } ∧
      eLog.libBuild.State.SetState .FILE_LOG b d = { d with IsFileLogEnabled := b } ∧
      eLog.libBuild.State.SetState .DEFAULT_FILE_LOG b d =
        { d with UseDefaultFileLog := b } ∧
      eLog.libBuild.State.SetState .DIRECT_FLUSH b d = { d with DirectFlush := b } ∧
      eLog.libBuild.State.SetState .BUFFER_LOG b d =
        { d with BufferLog := b,
                 BufferLogEnabled :=
                   eLog.libBuild.State.IsBuffering { d with BufferLog := b } } ∧
      eLog.libBuild.State.SetState .BUFFER_LOG_LABEL b d =
        { d with BufferLogLabel := b,
                 BufferLogEnabled :=
                   eLog.libBuild.State.IsBuffering { d with BufferLogLabel := b } } ∧
      eLog.libBuild.State.SetState .BUFFER_FILE_LOG b d =
        { d with BufferFileLog := b,
                 BufferLogEnabled :=
                   eLog.libBuild.State.IsBuffering { d with BufferFileLog := b } } ∧
      eLog.libBuild.State.SetState .BUFFER_FILE_LOG_LABEL b d =
        { d with BufferFileLogLabel := b,
                 BufferLogEnabled :=
                   eLog.libBuild.State.IsBuffering { d with BufferFileLogLabel := b } } ∧
      eLog.libBuild.State.SetState .THREADED_LOG b d = { d with ThreadedLog := b } ∧
      eLog.libBuild.State.SetState .USE_TIME b d = { d with UseTime := b } ∧
      eLog.libBuild.State.SetState .USE_DATE b d = { d with UseDate := b } ∧
      eLog.libBuild.State.SetState .USE_FILE b d = { d with UseFile := b } ∧
      eLog.libBuild.State.SetState .USE_FUNCTION b d = { d with UseFunction := b } ∧
      eLog.libBuild.State.SetState .USE_LINE b d = { d with UseLine := b } ∧
      eLog.libBuild.State.SetState .COLORLESS b d = { d with COLORLESS := b }) ∧
    (∀ (d : eLog.libBuild.State.Data) (f fn l dt dt' tm : List Char),
      d.UseDate = false →
      eLog.libBuild.LogInfo.fillBaseFormat d f fn l dt tm =
        eLog.libBuild.LogInfo.fillBaseFormat d f fn l dt' tm) ∧
    (∀ (d : eLog.libBuild.State.Data) (f fn l dt tm tm' : List Char),
      d.UseTime = false →
      eLog.libBuild.LogInfo.fillBaseFormat d f fn l dt tm =
        eLog.libBuild.LogInfo.fillBaseFormat d f fn l dt tm') ∧
    (∀ (d : eLog.libBuild.State.Data) (f f' fn l dt tm : List Char),
      d.UseFile = false →
      eLog.libBuild.LogInfo.fillBaseFormat d f fn l dt tm =
        eLog.libBuild.LogInfo.fillBaseFormat d f' fn l dt tm) ∧
    (∀ (d : eLog.libBuild.State.Data) (f fn fn' l dt tm : List Char),
      d.UseFunction = false →
      eLog.libBuild.LogInfo.fillBaseFormat d f fn l dt tm =
        eLog.libBuild.LogInfo.fillBaseFormat d f fn' l dt tm) ∧
    (∀ (d : eLog.libBuild.State.Data) (f fn l l' dt tm : List Char),
      d.UseLine = false →
      eLog.libBuild.LogInfo.fillBaseFormat d f fn l dt tm =
        eLog.libBuild.LogInfo.fillBaseFormat d f fn l' dt tm) ∧
    (∀ (d : eLog.libBuild.State.Data) (info : eLog.LogInfo.LogInfo) (c : Bool),
      eLog.libBuild.State.UseFormat d = false →
      eLog.libBuild.LogInfo.getFmtLogInfo d info c = []) ∧
    (∀ (d : eLog.libBuild.State.Data)
       (levels : List (String × eLog.AsciiColor.ColorEnum)) (lvl : String)
       (msg : List Char) (label : String) (info : eLog.LogInfo.LogInfo) (file : Bool),
      eLog.libBuild.State.UseFormat d = false →
      eLog.libBuild.LogImpl.fillLogBuffer d levels lvl msg label info file =
        eLog.libBuild.LogImpl.getLogLevelString d levels lvl (!file) ++
        "\t: ".toList ++
        (if label ≠ "default" then "[".toList ++ label.toList ++ "]".toList else []) ++
        " : ".toList ++ msg ++ ['\n']) := by
  refine ⟨?_, ?_, ?_, ?_, ?_, ?_, ?_, ?_⟩
  · intro b d
    exact ⟨rfl, rfl, rfl, rfl, rfl, rfl, rfl, rfl, rfl, rfl, rfl, rfl, rfl, rfl, rfl⟩
  · intro d f fn l dt dt' tm h
    simp [eLog.libBuild.LogInfo.fillBaseFormat, h]
  · intro d f fn l dt tm tm' h
    simp [eLog.libBuild.LogInfo.fillBaseFormat, h]
  · intro d f f' fn l dt tm h
    simp [eLog.libBuild.LogInfo.fillBaseFormat, h]
  · intro d f fn fn' l dt tm h
    simp [eLog.libBuild.LogInfo.fillBaseFormat, h]
  · intro d f fn l l' dt tm h
    simp [eLog.libBuild.LogInfo.fillBaseFormat, h]
  · intro d info c h
    simp [eLog.libBuild.LogInfo.getFmtLogInfo, h]
  · intro d levels lvl msg label info file h
    simp [eLog.libBuild.LogImpl.fillLogBuffer, eLog.libBuild.LogInfo.getFmtLogInfo, h]

/-- Witness for C3: with every include-flag off the rendered line carries
no bracketed metadata block. -/
theorem C3_witness :
    eLog.libBuild.LogImpl.fillLogBuffer
      ⟨"", false, true, true, true, false, false, false, false, false, false, false,
        100, false, false, false, false, false, false⟩
      eLog.LogLevel.LogLevels "INFO" "hi".toList "default"
      ⟨[], "a.cpp".toList, "main".toList, "7".toList, "Jan 01 2025".toList,
        "12:00:00".toList⟩ true =
    "INFO".toList ++ "\t: ".toList ++ [] ++ " : ".toList ++ "hi".toList ++ ['\n'] := by
  have h := C3_fifteen_state_surface_and_metadata_omission.2.2.2.2.2.2.2
    ⟨"", false, true, true, true, false, false, false, false, false, false, false,
      100, false, false, false, false, false, false⟩
    eLog.LogLevel.LogLevels "INFO" "hi".toList "default"
    ⟨[], "a.cpp".toList, "main".toList, "7".toList, "Jan 01 2025".toList,
      "12:00:00".toList⟩ true rfl
  rw [h]
  decide


open eLog eLog.StringHelper eLog.AsciiColor in
/-- C4: corrected.  The replacement `setColor` builds is
`color + target + closing`, where `closing` is the previous applied
range's colour whenever the new range starts at or before the previous
range's recorded end position; when it starts strictly after that end the
code appends the previous range's colour followed by the unordered
palette map's first element (`AsciiColors.begin()->second`, a parameter
here) — not the bare reset the claim states.  For the first range the
previous colour is the reset sequence.  The spec's concrete example
holds: B = "Hello world"→BLUE applied after A = "world"→RED on
"Hello world!" closes B's span with A's RED. -/
theorem C4_closing_color_rule :
    (∀ (beg : List Char) (cs : eLog.StringHelper.ColorizedString) (t : List Char)
       (col : eLog.AsciiColor.ColorEnum) (all : Bool)
       (r : eLog.StringHelper.ReplaceString),
      cs.mReplaceStrings.getLast? = some r →
      eLog.StringHelper.cppFindN cs.mStr t 0 ≤ r.mPosEndColor →
      ((eLog.StringHelper.setColor beg cs t col all).mReplaceStrings.getLast?).map
          eLog.StringHelper.ReplaceString.mReplaceString =
        some (eLog.AsciiColor.asciiAt col ++ t ++ r.mPrevColor)) ∧
    (∀ (beg : List Char) (cs : eLog.StringHelper.ColorizedString) (t : List Char)
       (col : eLog.AsciiColor.ColorEnum) (all : Bool)
       (r : eLog.StringHelper.ReplaceString),
      cs.mReplaceStrings.getLast? = some r →
      r.mPosEndColor < eLog.StringHelper.cppFindN cs.mStr t 0 →
      ((eLog.StringHelper.setColor beg cs t col all).mReplaceStrings.getLast?).map
          eLog.StringHelper.ReplaceString.mReplaceString =
        some (eLog.AsciiColor.asciiAt col ++ t ++ r.mPrevColor ++ beg)) ∧
    (∀ (beg : List Char) (cs : eLog.StringHelper.ColorizedString) (t : List Char)
       (col : eLog.AsciiColor.ColorEnum) (all : Bool),
      cs.mReplaceStrings = [] →
      ((eLog.StringHelper.setColor beg cs t col all).mReplaceStrings.getLast?).map
          eLog.StringHelper.ReplaceString.mReplaceString =
        some (eLog.AsciiColor.asciiAt col ++ t ++ eLog.AsciiColor.ResetColor ++
          (if 0 < eLog.StringHelper.cppFindN cs.mStr t 0 then beg else []))) ∧
    (∀ beg : List Char,
      ((eLog.StringHelper.setColor beg
          (eLog.StringHelper.setColor beg ⟨"Hello world!".toList, []⟩ "world".toList
            eLog.AsciiColor.ColorEnum.RED false)
          "Hello world".toList eLog.AsciiColor.ColorEnum.BLUE
          true).mReplaceStrings.getLast?).map
          eLog.StringHelper.ReplaceString.mReplaceString =
        some (eLog.AsciiColor.asciiAt eLog.AsciiColor.ColorEnum.BLUE ++
          "Hello world".toList ++ eLog.AsciiColor.asciiAt eLog.AsciiColor.ColorEnum.RED)) := by
  refine ⟨?_, ?_, ?_, fun beg => rfl⟩
  · intro beg cs t col all r h hle
    simp [setColor, asciiColorsContains_true, h, List.getLast?_concat,
      show ¬(r.mPosEndColor < cppFindN cs.mStr t 0) from by omega]
  · intro beg cs t col all r h hlt
    simp [setColor, asciiColorsContains_true, h, List.getLast?_concat, hlt]
  · intro beg cs t col all h
    simp [setColor, asciiColorsContains_true, h, List.getLast?_concat]

open eLog eLog.StringHelper eLog.AsciiColor in
/-- Witness for C4: the nested rule applied to the spec's example — with
A = "world"→RED recorded (previous colour RED, end position 11), range
B = "Hello world" starts at 0 ≤ 11, so its replacement closes with RED. -/
theorem C4_witness :
    ((eLog.StringHelper.setColor []
        (eLog.StringHelper.setColor [] ⟨"Hello world!".toList, []⟩ "world".toList
          eLog.AsciiColor.ColorEnum.RED false)
        "Hello world".toList eLog.AsciiColor.ColorEnum.BLUE
        true).mReplaceStrings.getLast?).map
        eLog.StringHelper.ReplaceString.mReplaceString =
      some (eLog.AsciiColor.asciiAt eLog.AsciiColor.ColorEnum.BLUE ++
        "Hello world".toList ++ eLog.AsciiColor.asciiAt eLog.AsciiColor.ColorEnum.RED) :=
  C4_closing_color_rule.1 []
    (eLog.StringHelper.setColor [] ⟨"Hello world!".toList, []⟩ "world".toList
      eLog.AsciiColor.ColorEnum.RED false)
    "Hello world".toList eLog.AsciiColor.ColorEnum.BLUE true
    ⟨"world".toList,
      eLog.AsciiColor.asciiAt eLog.AsciiColor.ColorEnum.RED ++ "world".toList ++
        eLog.AsciiColor.ResetColor ++ [],
      eLog.AsciiColor.asciiAt eLog.AsciiColor.ColorEnum.RED, 11, false⟩
    (by decide) (by decide)

open eLog eLog.StringHelper eLog.AsciiColor in
/-- C4 counterexample: on "ab", after A = "a"→RED (end position 1), range
B = "b" starts exactly at position 1 — not before A's end — so the claim
demands the reset sequence as B's closing colour, but the code (whose
condition is `lastColorPos < find`, i.e. strictly after) closes B with
A's RED instead. -/
theorem C4_counterexample :
    ((eLog.StringHelper.setColor []
        (eLog.StringHelper.setColor [] ⟨"ab".toList, []⟩ "a".toList
          eLog.AsciiColor.ColorEnum.RED false)
        "b".toList eLog.AsciiColor.ColorEnum.BLUE
        false).mReplaceStrings.getLast?).map
        eLog.StringHelper.ReplaceString.mReplaceString =
      some (eLog.AsciiColor.asciiAt eLog.AsciiColor.ColorEnum.BLUE ++ "b".toList ++
        eLog.AsciiColor.asciiAt eLog.AsciiColor.ColorEnum.RED) ∧
    ((eLog.StringHelper.setColor []
        (eLog.StringHelper.setColor [] ⟨"ab".toList, []⟩ "a".toList
          eLog.AsciiColor.ColorEnum.RED false)
        "b".toList eLog.AsciiColor.ColorEnum.BLUE
        false).mReplaceStrings.getLast?).map
        eLog.StringHelper.ReplaceString.mReplaceString ≠
      some (eLog.AsciiColor.asciiAt eLog.AsciiColor.ColorEnum.BLUE ++ "b".toList ++
        eLog.AsciiColor.ResetColor) ∧
    (eLog.StringHelper.setColor [] ⟨"ab".toList, []⟩ "a".toList
        eLog.AsciiColor.ColorEnum.RED false).mReplaceStrings.getLast?.map
        eLog.StringHelper.ReplaceString.mPosEndColor = some 1 ∧
    eLog.StringHelper.cppFindN "ab".toList "b".toList 0 = 1 := by
  refine ⟨rfl, ?_, by decide, by decide⟩
  decide


open eLog eLog.StringHelper in
/-- C6: corrected.  The two spec examples hold, a non-numeric (or
fractional — any text containing a non-digit) argument yields the empty
hex conversion, and for a numeric argument the conversion produces the
uppercase `0x`-prefixed literal zero-padded to the requested precision
when the literal has at most `precision` hex digits; but when it has more
digits than the precision, the pad count `precision - hexVal.size() + 2`
underflows in `size_t` and the insertion throws instead of leaving the
literal unpadded (see the counterexample). -/
theorem C6_hex_format_conversion_and_padding :
    eLog.fmt.Format "\x7b:x4\x7d".toList ["6789".toList] = some "0x1A85".toList ∧
    eLog.fmt.Format "\x7b:x4\x7d".toList ["3".toList] = some "0x0003".toList ∧
    (∀ val : List Char, eLog.fmt.IsNumber val = false →
      eLog.fmt.stringToHex val = some []) ∧
    (∀ (val : List Char) (precision : Int),
      eLog.fmt.IsNumber val = true →
      eLog.fmt.decVal val ≤ eLog.fmt.LLONG_MAX →
      1 ≤ precision →
      (eLog.fmt.toHexU (eLog.fmt.decVal val)).length ≤ precision.toNat →
      eLog.fmt.hexBranch val precision =
        some ("0x".toList ++
          List.replicate
            (precision.toNat - (eLog.fmt.toHexU (eLog.fmt.decVal val)).length) '0' ++
          eLog.fmt.toHexU (eLog.fmt.decVal val))) := by
  refine ⟨by decide, by decide, ?_, ?_⟩
  · intro val h
    simp [eLog.fmt.stringToHex, h]
  · intro val precision h1 h2 h3 h4
    have hall : val.all Char.isDigit = true := by
      rw [eLog.fmt.IsNumber, Bool.and_eq_true] at h1
      exact h1.2
    have hdotmem : '.' ∉ val := by
      intro hmem
      have hdig := List.all_eq_true.mp hall '.' hmem
      simp at hdig
    have hsth : eLog.fmt.stringToHex val =
        some ("0x".toList ++ eLog.fmt.toHexU (eLog.fmt.decVal val)) := by
      rw [eLog.fmt.stringToHex, if_neg (by simp [h1]), if_neg (by simp [hdotmem]),
        if_neg (by omega)]
    set T := eLog.fmt.toHexU (eLog.fmt.decVal val) with hT
    have hlenT : ("0x".toList ++ T).length = T.length + 2 := by
      simp [List.length_append]
    have hocc0 : occursAt ("0x".toList ++ T) ['x'] 0 = false := by
      simp [occursAt]
    have hocc1 : occursAt ("0x".toList ++ T) ['x'] 1 = true := by
      simp [occursAt, hlenT]
    have hfx : cppFind ("0x".toList ++ T) ['x'] 0 = some 1 := by
      rw [cppFind, Nat.sub_zero, hlenT]
      rw [show T.length + 2 + 1 = (T.length + 2) + 1 from rfl]
      rw [cppFindGo, hocc0]
      rw [if_neg (by simp)]
      rw [show T.length + 2 = (T.length + 1) + 1 from by omega]
      rw [cppFindGo, hocc1]
      rw [if_pos rfl]
    rw [eLog.fmt.hexBranch]
    simp only [hsth, hfx]
    rw [if_pos h3]
    have hcast : ((("0x".toList ++ T).length : Int)) = (T.length : Int) + 2 := by
      exact_mod_cast hlenT
    rw [hcast]
    rw [if_neg (by omega)]
    have hcnt : (precision - ((T.length : Int) + 2) + 2).toNat =
        precision.toNat - T.length := by omega
    rw [hcnt, eLog.fmt.hexInsertPad]
    simp

open eLog in
/-- Witness for C6: the general conversion-and-padding rule applied at the
spec's own example `6789` with precision 4. -/
theorem C6_witness :
    eLog.fmt.IsNumber "6789".toList = true ∧
    eLog.fmt.hexBranch "6789".toList 4 =
      some ("0x".toList ++
        List.replicate
          ((4 : Int).toNat - (eLog.fmt.toHexU (eLog.fmt.decVal "6789".toList)).length) '0' ++
        eLog.fmt.toHexU (eLog.fmt.decVal "6789".toList)) :=
  ⟨by decide, C6_hex_format_conversion_and_padding.2.2.2 "6789".toList 4 (by decide)
    (by decide) (by decide) (by decide)⟩

open eLog in
/-- C6 counterexample: `Format("{:x1}", 256)` — a numeric argument whose
hex literal `0x100` has more digits than the precision — produces no
string at all: the pad count wraps in `size_t` and the insertion throws,
instead of substituting the (unpaddable) literal. -/
theorem C6_counterexample :
    eLog.fmt.Format "\x7b:x1\x7d".toList ["256".toList] = none ∧
    eLog.fmt.IsNumber "256".toList = true ∧
    eLog.fmt.stringToHex "256".toList = some "0x100".toList := by
  decide
